import Mathlib

/-!
Shallow embedding of the wyoming-porcupine server core
(src/wyoming_porcupine/handler.py) in Lean 4.

Modelling conventions:

* Bytes are natural numbers below 256, byte strings are lists of bytes.
* Python floats (the sensitivity CLI argument, compared with exact float
  equality in State.get_porcupine) are modelled as rationals with decidable
  exact equality, which mirrors exact comparison of the same float values.
* The opaque pvporcupine handle is modelled by an identity number (assigned
  freshly by each pvporcupine.create call) together with the frame_length
  the library reports for the keyword model; the stateful native
  porcupine.process call is modelled by an oracle function of the handle
  identity and the unpacked frame (the claims below depend only on which
  frames are passed to process and on the sign of the returned index).
* The external AudioChunkConverter is outside the specified core; AudioChunk
  events in the model carry the already converted canonical PCM bytes, the
  form in which handler.py appends them to its buffer.
* Exceptions (raise ValueError, assert) are modelled by an err field that
  carries the message; the session and server fields of a result hold the
  mutations made before the exception was raised, as in Python.
-/

namespace WyomingPorcupine

/-- DEFAULT_KEYWORD at handler.py line 23. -/
def DEFAULT_KEYWORD : String := "porcupine"

/-- Keyword dataclass (handler.py lines 26-32): one porcupine keyword. -/
structure Keyword where
  language : String
  name : String
  modelPath : String
deriving DecidableEq

/-- Detector dataclass (handler.py lines 35-38): an opaque porcupine handle
plus the sensitivity it was built with.  The handle is modelled by its
identity number and its fixed frame_length. -/
structure Detector where
  id : Nat
  frameLength : Nat
  sensitivity : ℚ
deriving DecidableEq

/-- Environment of a running process: the fixed CLI sensitivity, the
frame_length pvporcupine.create reports for each keyword model, and the
oracle for porcupine.process. -/
structure Env where
  sensitivity : ℚ
  frameLengthOf : String → Nat
  process : Nat → List Int → Int

/-- State of the system (handler.py lines 41-50): keyword mapping and the
detector cache (keyword name to list of idle detectors).  Both dictionaries
are modelled as first-match association lists; nextId supplies the fresh
identity for each pvporcupine.create call. -/
structure ServerState where
  keywords : List (String × Keyword)
  detectorCache : List (String × List Detector)
  nextId : Nat
deriving DecidableEq

/-- Lookup in a Python dict modelled as an association list (dict.get). -/
def lookupKeyword : List (String × Keyword) → String → Option Keyword
  | [], _ => none
  | (k, v) :: rest, key => if k = key then some v else lookupKeyword rest key

/-- detector_cache.get(keyword_name): the idle list for a keyword, empty when
the key is absent (so absent and present-but-empty both behave as a miss,
exactly as the falsy test at handler.py line 62 does). -/
def cacheGet : List (String × List Detector) → String → List Detector
  | [], _ => []
  | (k, v) :: rest, key => if k = key then v else cacheGet rest key

/-- Rebinding of a dict key to a new list value (an in-place mutation of the
list object in Python updates the entry the key maps to). -/
def cacheSet : List (String × List Detector) → String → List Detector →
    List (String × List Detector)
  | [], key, v => [(key, v)]
  | (k, w) :: rest, key, v =>
      if k = key then (key, v) :: rest else (k, w) :: cacheSet rest key v

/-- next((d for d in detectors if d.sensitivity == sensitivity), None) at
handler.py lines 63-65: first detector with exactly equal sensitivity. -/
def findWithSens (s : ℚ) : List Detector → Option Detector :=
  List.find? (fun d => d.sensitivity = s)

/-- detectors.remove(detector) at handler.py line 68, where detector is the
first element with matching sensitivity: list.remove drops the first equal
element, and every earlier element has a different sensitivity, so exactly
the first matching detector is removed. -/
def removeFirstWithSens (s : ℚ) : List Detector → List Detector
  | [] => []
  | d :: ds => if d.sensitivity = s then ds else d :: removeFirstWithSens s ds

/-- pvporcupine.create at handler.py lines 78-83: builds a fresh detector for
the keyword model with the requested sensitivity. -/
def freshDetector (env : Env) (keywordName : String) (s : ℚ) (id : Nat) :
    Detector :=
  ⟨id, env.frameLengthOf keywordName, s⟩

/-- State.get_porcupine (handler.py lines 52-85).  Unknown keyword raises
ValueError before any mutation; a cache hit on exact sensitivity equality is
removed from the idle list before being handed out; otherwise a fresh
detector is built and returned without being inserted into the cache. -/
def getPorcupine (env : Env) (st : ServerState) (keywordName : String)
    (sensitivity : ℚ) : Except String Detector × ServerState :=
  match lookupKeyword st.keywords keywordName with
  | none => (.error ("No keyword " ++ keywordName), st)
  | some _keyword =>
    let detectors := cacheGet st.detectorCache keywordName
    match findWithSens sensitivity detectors with
    | some detector =>
        let cache := cacheSet st.detectorCache keywordName
          (removeFirstWithSens sensitivity detectors)
        (.ok detector, { st with detectorCache := cache })
    | none =>
        (.ok (freshDetector env keywordName sensitivity st.nextId),
         { st with nextId := st.nextId + 1 })

/-- Outbound events written by the handler (wyoming info/wake events). -/
inductive OutEvent where
  | info
  | detection (name : String) (timestamp : Option Int)
  | notDetected
deriving DecidableEq

/-- Inbound events consumed by handle_event.  audioChunk carries the already
converted audio bytes and the chunk timestamp; other covers every unexpected
event type. -/
inductive InEvent where
  | describe
  | detect (names : List String)
  | audioStart
  | audioChunk (audio : List Nat) (timestamp : Option Int)
  | audioStop
  | other
deriving DecidableEq

/-- Per-connection mutable state of PorcupineEventHandler (handler.py lines
108-115): bound detector, active keyword name, raw audio buffer, detected
flag, and the two frame-format fields set together by _load_keyword
(chunkFormatLen is the number of h entries of chunk_format). -/
structure Session where
  detector : Option Detector
  keywordName : String
  audioBuffer : List Nat
  detected : Bool
  chunkFormatLen : Nat
  bytesPerChunk : Nat
deriving DecidableEq

/-- Fresh session state built by PorcupineEventHandler.__init__. -/
def initSession : Session :=
  { detector := none, keywordName := "", audioBuffer := [], detected := false,
    chunkFormatLen := 0, bytesPerChunk := 0 }

/-- Embedding of _load_keyword (handler.py lines 190-196): acquire a detector from the
shared state and bind it, updating keyword_name, chunk_format and
bytes_per_chunk.  audio_buffer and detected are not touched. -/
def loadKeyword (env : Env) (server : ServerState) (sess : Session)
    (keywordName : String) : Except String Unit × Session × ServerState :=
  match getPorcupine env server keywordName env.sensitivity with
  | (.error e, server) => (.error e, sess, server)
  | (.ok d, server) =>
      let sess := { sess with detector := some d, keywordName := keywordName, chunkFormatLen := d.frameLength, bytesPerChunk := d.frameLength * 2 }
      (.ok (), sess, server)

/-- Little-endian signed 16-bit sample from two bytes, as one h entry of
struct.unpack_from. -/
def int16OfBytes (lo hi : Nat) : Int :=
  let v := lo % 256 + 256 * (hi % 256)
  if v < 32768 then (v : Int) else (v : Int) - 65536

/-- struct.unpack_from with format h repeated k times (handler.py lines 144-146): k signed
16-bit little-endian samples from the front of buf.  In the handler the
buffer slice always holds chunkFormatLen * 2 bytes, so the final underfull
arm is never reached there. -/
def unpackSamples : Nat → List Nat → List Int
  | 0, _ => []
  | k + 1, lo :: hi :: rest => int16OfBytes lo hi :: unpackSamples k rest
  | _ + 1, _ => []

/-- Result of running the while loop of handle_event over the buffer: the
frames passed to porcupine.process in order, the Detection events written,
and the remaining buffer. -/
structure ProcOut where
  calls : List (List Int)
  outs : List OutEvent
  buffer : List Nat
deriving DecidableEq

/-- While loop of handle_event (handler.py lines 143-158), with an explicit
iteration bound: while the buffer holds at least bytesPerChunk bytes, unpack
one frame from the front, call porcupine.process on it, emit a Detection
when the returned index is nonnegative, and drop the consumed bytes.  An
initial bound of buffer length always suffices when 0 < bytesPerChunk, since
every pass removes bytesPerChunk bytes (the Python loop does not terminate
when bytes_per_chunk = 0; the model is only used with positive frame
sizes). -/
def processWhileGo (env : Env) (did : Nat) (kw : String) (ts : Option Int)
    (fmtLen n : Nat) : Nat → List Nat → ProcOut
  | 0, buf => ⟨[], [], buf⟩
  | fuel + 1, buf =>
      if n ≤ buf.length then
        let frame := unpackSamples fmtLen (buf.take n)
        let idx := env.process did frame
        let rest := processWhileGo env did kw ts fmtLen n fuel (buf.drop n)
        ⟨frame :: rest.calls,
         (if 0 ≤ idx then [OutEvent.detection kw ts] else []) ++ rest.outs,
         rest.buffer⟩
      else ⟨[], [], buf⟩

/-- Whole run of the while loop of handle_event on a buffer. -/
def processWhile (env : Env) (did : Nat) (kw : String) (ts : Option Int)
    (fmtLen n : Nat) (buf : List Nat) : ProcOut :=
  processWhileGo env did kw ts fmtLen n buf.length buf

/-- Result of handle_event: session and server after the call (holding every
mutation made before a possible exception), the events written, the frames
passed to porcupine.process, the returned continue flag, and the propagated
exception message if any (cont is meaningless when err is set, since the
Python call never returns then). -/
structure HandleResult where
  sess : Session
  server : ServerState
  outs : List OutEvent
  calls : List (List Int)
  cont : Bool
  err : Option String
deriving DecidableEq

/-- PorcupineEventHandler.handle_event (handler.py lines 119-174). -/
def handleEvent (env : Env) (server : ServerState) (sess : Session) :
    InEvent → HandleResult
  | .describe => ⟨sess, server, [.info], [], true, none⟩
  | .detect names =>
      match names with
      | [] => ⟨sess, server, [], [], true, none⟩
      | name :: _ =>
          match loadKeyword env server sess name with
          | (.error e, sess, server) => ⟨sess, server, [], [], true, some e⟩
          | (.ok (), sess, server) => ⟨sess, server, [], [], true, none⟩
  | .audioStart => ⟨{ sess with detected := false }, server, [], [], true, none⟩
  | .audioChunk audio ts =>
      match
        (match sess.detector with
         | none => loadKeyword env server sess DEFAULT_KEYWORD
         | some _ => (.ok (), sess, server)) with
      | (.error e, sess, server) => ⟨sess, server, [], [], true, some e⟩
      | (.ok (), sess, server) =>
          match sess.detector with
          | none =>
              ⟨sess, server, [], [], true, some "assert self.detector is not None"⟩
          | some d =>
              let buf := sess.audioBuffer ++ audio
              let po := processWhile env d.id sess.keywordName ts
                sess.chunkFormatLen sess.bytesPerChunk buf
              ⟨{ sess with audioBuffer := po.buffer }, server,
               po.outs, po.calls, true, none⟩
  | .audioStop =>
      if sess.detected then ⟨sess, server, [], [], false, none⟩
      else ⟨sess, server, [.notDetected], [], false, none⟩
  | .other => ⟨sess, server, [], [], true, none⟩

/-- PorcupineEventHandler.disconnect (handler.py lines 176-188): return the
bound detector, if any, to the idle list of its keyword (defaultdict append)
and clear the binding. -/
def disconnect (server : ServerState) (sess : Session) :
    Session × ServerState :=
  match sess.detector with
  | none => (sess, server)
  | some d =>
      let cache := cacheSet server.detectorCache sess.keywordName
        (cacheGet server.detectorCache sess.keywordName ++ [d])
      ({ sess with detector := none }, { server with detectorCache := cache })

/-- Driving loop of the server for one connection: events are handled in
order until handle_event returns false or raises. -/
def runEvents (env : Env) : ServerState → Session → List InEvent →
    Session × ServerState × List OutEvent
  | server, sess, [] => (sess, server, [])
  | server, sess, ev :: rest =>
      let r := handleEvent env server sess ev
      if r.err = none ∧ r.cont then
        let (s, st, outs) := runEvents env r.server r.sess rest
        (s, st, r.outs ++ outs)
      else (r.sess, r.server, r.outs)

/-- Feeding a list of AudioChunk events (audio bytes with a timestamp) to one
session in order, collecting the frames passed to porcupine.process. -/
def feedChunks (env : Env) : ServerState → Session →
    List (List Nat × Option Int) → Session × ServerState × List (List Int)
  | server, sess, [] => (sess, server, [])
  | server, sess, c :: rest =>
      let r := handleEvent env server sess (.audioChunk c.1 c.2)
      let res := feedChunks env r.server r.sess rest
      (res.1, res.2.1, r.calls ++ res.2.2)

/-- Whole system: the process-wide shared state together with the sessions of
every connected client (session i belongs to client i). -/
structure Sys where
  server : ServerState
  sessions : List Session
deriving DecidableEq

/-- Operations that move detectors between sessions and the cache: an acquire
is a _load_keyword call of session i (which calls State.get_porcupine), a
release is the disconnect of session i. -/
inductive SysOp where
  | acquire (i : Nat) (keywordName : String)
  | release (i : Nat)
deriving DecidableEq

/-- Apply one acquire or release operation to the system. -/
def applyOp (env : Env) (sys : Sys) : SysOp → Sys
  | .acquire i name =>
      match sys.sessions[i]? with
      | none => sys
      | some sess =>
          let (_res, sess, server) := loadKeyword env sys.server sess name
          ⟨server, sys.sessions.set i sess⟩
  | .release i =>
      match sys.sessions[i]? with
      | none => sys
      | some sess =>
          let (sess, server) := disconnect sys.server sess
          ⟨server, sys.sessions.set i sess⟩

/-- Every detector held in the idle lists of the cache. -/
def cacheJoin (c : List (String × List Detector)) : List Detector :=
  (c.map Prod.snd).flatten

/-- Every detector owned by someone: bound to a session or idle in the
cache. -/
def ownedDetectors (sys : Sys) : List Detector :=
  sys.sessions.filterMap Session.detector ++ cacheJoin sys.server.detectorCache

/-- Identity numbers of all owned detectors. -/
def ownedIds (sys : Sys) : List Nat :=
  (ownedDetectors sys).map Detector.id

/-- Ownership invariant: every detector instance is owned by exactly one
owner (no identity occurs twice across sessions and idle lists), and every
owned identity was minted by a past pvporcupine.create call. -/
def SysInv (sys : Sys) : Prop :=
  (ownedIds sys).Nodup ∧ ∀ i ∈ ownedIds sys, i < sys.server.nextId

instance (sys : Sys) : Decidable (SysInv sys) := by
  unfold SysInv; infer_instance

/-- After an acquire by session i, the detector now bound to session i (the
one the acquire returned, when it succeeded) is owned exactly once in the
whole system: no other session holds it and it is no longer idle. -/
def acquiredUnique (env : Env) (sys : Sys) (op : SysOp) : Prop :=
  match op with
  | .acquire i _ =>
      match ((applyOp env sys op).sessions[i]?).bind Session.detector with
      | some d => (ownedIds (applyOp env sys op)).count d.id = 1
      | none => True
  | .release _ => True

/-! Concrete fixtures used by witnesses and counterexamples. -/

/-- Environment with one-sample frames whose process oracle always matches. -/
def envA : Env := ⟨1, fun _ => 1, fun _ _ => 0⟩

/-- Environment whose process oracle never matches and whose keyword models
have different frame lengths. -/
def envB : Env := ⟨1, fun k => if k = "small" then 4 else 8, fun _ _ => -1⟩

/-- Server state holding only the default keyword, with an empty cache. -/
def serverA : ServerState := ⟨[("porcupine", ⟨"en", "porcupine", "p"⟩)], [], 0⟩

/-- Server state with two keywords and one idle detector for keyword b. -/
def serverB : ServerState :=
  ⟨[("a", ⟨"en", "a", "p"⟩), ("b", ⟨"en", "b", "p"⟩), ("small", ⟨"en", "small", "p"⟩)],
   [("b", [⟨1, 1, 1⟩])], 2⟩

/-- Session bound to detector 0 for keyword a, holding three buffered bytes
(less than one frame of its four-byte frame size). -/
def sessA : Session := ⟨some ⟨0, 2, 1⟩, "a", [9, 9, 9], false, 2, 4⟩

/-- Session bound to a sixteen-byte-frame detector holding ten buffered bytes
(less than one frame). -/
def sess9 : Session := ⟨some ⟨0, 8, 1⟩, "a", List.replicate 10 0, false, 8, 16⟩

/-! Lemmas about the cache data structure. -/

theorem cacheJoin_cons (p : String × List Detector)
    (rest : List (String × List Detector)) :
    cacheJoin (p :: rest) = p.2 ++ cacheJoin rest := by
  simp [cacheJoin]

theorem mem_cacheJoin_of_mem_cacheGet (c : List (String × List Detector))
    (k : String) (d : Detector) (h : d ∈ cacheGet c k) : d ∈ cacheJoin c := by
  induction c with
  | nil => simp [cacheGet] at h
  | cons p rest ih =>
      rcases p with ⟨k1, v⟩
      rw [cacheJoin_cons]
      simp only [cacheGet] at h
      by_cases hk : k1 = k
      · rw [if_pos hk] at h
        exact List.mem_append_left _ h
      · rw [if_neg hk] at h
        exact List.mem_append_right _ (ih h)

theorem removeFirstWithSens_sublist (s : ℚ) (ds : List Detector) :
    (removeFirstWithSens s ds).Sublist ds := by
  induction ds with
  | nil => simp [removeFirstWithSens]
  | cons d rest ih =>
      simp only [removeFirstWithSens]
      by_cases hs : d.sensitivity = s
      · rw [if_pos hs]
        exact (List.sublist_cons_self d rest)
      · rw [if_neg hs]
        exact ih.cons₂ d

theorem findWithSens_perm (s : ℚ) (ds : List Detector) (d : Detector)
    (h : findWithSens s ds = some d) :
    ds.Perm (d :: removeFirstWithSens s ds) := by
  induction ds with
  | nil => simp [findWithSens] at h
  | cons d0 rest ih =>
      by_cases hs : d0.sensitivity = s
      · have hh : findWithSens s (d0 :: rest) = some d0 := by
          simp [findWithSens, List.find?_cons, hs]
        rw [hh] at h
        injection h with h
        subst h
        simp only [removeFirstWithSens, if_pos hs]
        exact List.Perm.refl _
      · have hh : findWithSens s (d0 :: rest) = findWithSens s rest := by
          simp [findWithSens, List.find?_cons, hs]
        rw [hh] at h
        simp only [removeFirstWithSens, if_neg hs]
        exact ((ih h).cons d0).trans (List.Perm.swap d d0 _)

theorem findWithSens_some (s : ℚ) (ds : List Detector) (d : Detector)
    (h : findWithSens s ds = some d) : d.sensitivity = s ∧ d ∈ ds := by
  refine ⟨?_, List.mem_of_find?_eq_some h⟩
  have := List.find?_some h
  exact of_decide_eq_true this

theorem findWithSens_none (s : ℚ) (ds : List Detector)
    (h : findWithSens s ds = none) : ∀ d ∈ ds, ¬ d.sensitivity = s := by
  intro d hd
  have := List.find?_eq_none.mp h d hd
  simpa using this

theorem cacheJoin_cacheSet_perm (c : List (String × List Detector))
    (k : String) (v : List Detector) :
    (cacheJoin (cacheSet c k v) ++ cacheGet c k).Perm (cacheJoin c ++ v) := by
  induction c with
  | nil =>
      simp [cacheSet, cacheGet, cacheJoin]
  | cons p rest ih =>
      rcases p with ⟨k1, w⟩
      by_cases hk : k1 = k
      · subst hk
        simp only [cacheSet, cacheGet, cacheJoin_cons, eq_self_iff_true, if_true]
        rw [← Multiset.coe_eq_coe, ← Multiset.coe_add, ← Multiset.coe_add,
          ← Multiset.coe_add, ← Multiset.coe_add]
        abel
      · simp only [cacheSet, if_neg hk, cacheGet, cacheJoin_cons]
        rw [List.append_assoc, List.append_assoc]
        exact List.Perm.append_left w ih

/-! Lemmas about State.get_porcupine. -/

theorem getPorcupine_error_spec (env : Env) (st : ServerState) (k : String)
    (s : ℚ) (e : String) (st' : ServerState)
    (h : getPorcupine env st k s = (.error e, st')) :
    st' = st ∧ lookupKeyword st.keywords k = none := by
  cases hk : lookupKeyword st.keywords k with
  | none =>
      simp only [getPorcupine, hk] at h
      exact ⟨(congrArg Prod.snd h).symm, rfl⟩
  | some kw =>
      simp only [getPorcupine, hk] at h
      cases hf : findWithSens s (cacheGet st.detectorCache k) with
      | some d => simp only [hf] at h; exact absurd (congrArg Prod.fst h) (by simp)
      | none => simp only [hf] at h; exact absurd (congrArg Prod.fst h) (by simp)

theorem getPorcupine_ok_spec (env : Env) (st : ServerState) (k : String)
    (s : ℚ) (d : Detector) (st' : ServerState)
    (h : getPorcupine env st k s = (.ok d, st')) :
    st'.keywords = st.keywords ∧ d.sensitivity = s ∧
    ((d ∈ cacheGet st.detectorCache k ∧ st'.nextId = st.nextId ∧
        (cacheJoin st'.detectorCache ++ [d]).Perm (cacheJoin st.detectorCache)) ∨
     (d = freshDetector env k s st.nextId ∧
        st'.detectorCache = st.detectorCache ∧ st'.nextId = st.nextId + 1 ∧
        ∀ d' ∈ cacheGet st.detectorCache k, ¬ d'.sensitivity = s)) := by
  cases hk : lookupKeyword st.keywords k with
  | none =>
      simp only [getPorcupine, hk] at h
      exact absurd (congrArg Prod.fst h) (by simp)
  | some kw =>
      simp only [getPorcupine, hk] at h
      cases hf : findWithSens s (cacheGet st.detectorCache k) with
      | some d0 =>
          simp only [hf] at h
          have h1 : d0 = d := by
            have := congrArg Prod.fst h
            injection this
          have h2 := congrArg Prod.snd h
          subst h1
          subst h2
          obtain ⟨hs, hmem⟩ := findWithSens_some s _ d0 hf
          refine ⟨rfl, hs, Or.inl ⟨hmem, rfl, ?_⟩⟩
          have hperm := cacheJoin_cacheSet_perm st.detectorCache k
            (removeFirstWithSens s (cacheGet st.detectorCache k))
          have hfp := findWithSens_perm s (cacheGet st.detectorCache k) d0 hf
          have h3 : cacheJoin (cacheSet st.detectorCache k
              (removeFirstWithSens s (cacheGet st.detectorCache k)))
              ++ (d0 :: removeFirstWithSens s (cacheGet st.detectorCache k))
              |>.Perm (cacheJoin st.detectorCache
                ++ removeFirstWithSens s (cacheGet st.detectorCache k)) :=
            (List.Perm.append_left _ hfp.symm).trans hperm
          rw [← List.perm_append_right_iff
            (removeFirstWithSens s (cacheGet st.detectorCache k)),
            List.append_assoc, List.singleton_append]
          exact h3
      | none =>
          simp only [hf] at h
          have h1 : freshDetector env k s st.nextId = d := by
            have := congrArg Prod.fst h
            injection this
          have h2 := congrArg Prod.snd h
          subst h2
          exact ⟨rfl, h1 ▸ rfl, Or.inr ⟨h1.symm, rfl, rfl, findWithSens_none s _ hf⟩⟩

/-- Case analysis of _load_keyword: either State.get_porcupine raised and the
session is untouched, or it returned a detector that is bound together with
the derived frame-format fields. -/
theorem loadKeyword_spec (env : Env) (server : ServerState) (sess : Session)
    (name : String) :
    (∃ e server2,
      getPorcupine env server name env.sensitivity = (.error e, server2) ∧
      loadKeyword env server sess name = (.error e, sess, server2)) ∨
    (∃ d server2,
      getPorcupine env server name env.sensitivity = (.ok d, server2) ∧
      loadKeyword env server sess name =
        (.ok (), { sess with detector := some d, keywordName := name, chunkFormatLen := d.frameLength, bytesPerChunk := d.frameLength * 2 }, server2)) := by
  cases hg : getPorcupine env server name env.sensitivity with
  | mk res server2 =>
      cases res with
      | error e => exact Or.inl ⟨e, server2, rfl, by simp [loadKeyword, hg]⟩
      | ok d => exact Or.inr ⟨d, server2, rfl, by simp [loadKeyword, hg]⟩

/-! Lemmas about the audio processing while loop. -/

theorem processWhileGo_stable (env : Env) (did : Nat) (kw : String)
    (ts : Option Int) (fmtLen n : Nat) (hn : 0 < n) :
    ∀ f1 f2 : Nat, ∀ buf : List Nat, buf.length ≤ f1 → buf.length ≤ f2 →
      processWhileGo env did kw ts fmtLen n f1 buf =
      processWhileGo env did kw ts fmtLen n f2 buf := by
  intro f1
  induction f1 with
  | zero =>
      intro f2 buf h1 _h2
      have hb : buf = [] := List.length_eq_zero.mp (Nat.le_zero.mp h1)
      subst hb
      cases f2 with
      | zero => rfl
      | succ f2 =>
          simp only [processWhileGo]
          rw [if_neg (by simp only [List.length_nil]; omega)]
  | succ f1 ih =>
      intro f2 buf h1 h2
      cases f2 with
      | zero =>
          have hb : buf = [] := List.length_eq_zero.mp (Nat.le_zero.mp h2)
          subst hb
          simp only [processWhileGo]
          rw [if_neg (by simp only [List.length_nil]; omega)]
      | succ f2 =>
          simp only [processWhileGo]
          by_cases hc : n ≤ buf.length
          · rw [if_pos hc, if_pos hc,
              ih f2 (buf.drop n) (by simp only [List.length_drop]; omega)
                (by simp only [List.length_drop]; omega)]
          · rw [if_neg hc, if_neg hc]

theorem processWhile_ge (env : Env) (did : Nat) (kw : String)
    (ts : Option Int) (fmtLen n : Nat) (buf : List Nat) (hn : 0 < n)
    (hlen : n ≤ buf.length) :
    processWhile env did kw ts fmtLen n buf =
      ⟨unpackSamples fmtLen (buf.take n) ::
        (processWhile env did kw ts fmtLen n (buf.drop n)).calls,
       (if 0 ≤ env.process did (unpackSamples fmtLen (buf.take n)) then
          [OutEvent.detection kw ts] else []) ++
        (processWhile env did kw ts fmtLen n (buf.drop n)).outs,
       (processWhile env did kw ts fmtLen n (buf.drop n)).buffer⟩ := by
  obtain ⟨m, hm⟩ : ∃ m, buf.length = m + 1 := ⟨buf.length - 1, by omega⟩
  unfold processWhile
  rw [hm]
  simp only [processWhileGo]
  rw [processWhileGo_stable env did kw ts fmtLen n hn m (buf.drop n).length
    (buf.drop n) (by simp only [List.length_drop]; omega) (le_refl _),
    if_pos hlen]

theorem processWhile_lt (env : Env) (did : Nat) (kw : String)
    (ts : Option Int) (fmtLen n : Nat) (buf : List Nat)
    (hlen : buf.length < n) :
    processWhile env did kw ts fmtLen n buf = ⟨[], [], buf⟩ := by
  unfold processWhile
  cases hb : buf.length with
  | zero =>
      have : buf = [] := List.length_eq_zero.mp hb
      subst this
      rfl
  | succ m =>
      simp only [processWhileGo]
      rw [if_neg (by omega)]

theorem processWhile_buffer_lt (env : Env) (did : Nat) (kw : String)
    (ts : Option Int) (fmtLen n : Nat) (buf : List Nat) (hn : 0 < n) :
    (processWhile env did kw ts fmtLen n buf).buffer.length < n := by
  by_cases hc : n ≤ buf.length
  · rw [processWhile_ge env did kw ts fmtLen n buf hn hc]
    exact processWhile_buffer_lt env did kw ts fmtLen n (buf.drop n) hn
  · rw [processWhile_lt env did kw ts fmtLen n buf (by omega)]
    show buf.length < n
    omega
termination_by buf.length
decreasing_by simp only [List.length_drop]; omega

theorem processWhileGo_kw_ts_irrel (env : Env) (did : Nat) (kw kw2 : String)
    (ts ts2 : Option Int) (fmtLen n : Nat) :
    ∀ fuel : Nat, ∀ buf : List Nat,
      (processWhileGo env did kw ts fmtLen n fuel buf).calls =
        (processWhileGo env did kw2 ts2 fmtLen n fuel buf).calls ∧
      (processWhileGo env did kw ts fmtLen n fuel buf).buffer =
        (processWhileGo env did kw2 ts2 fmtLen n fuel buf).buffer := by
  intro fuel
  induction fuel with
  | zero => exact fun buf => ⟨rfl, rfl⟩
  | succ fuel ih =>
      intro buf
      by_cases hc : n ≤ buf.length
      · simp only [processWhileGo, if_pos hc]
        obtain ⟨h1, h2⟩ := ih (buf.drop n)
        exact ⟨by rw [h1], by rw [h2]⟩
      · simp [processWhileGo, if_neg hc]

theorem processWhile_kw_ts_irrel (env : Env) (did : Nat) (kw kw2 : String)
    (ts ts2 : Option Int) (fmtLen n : Nat) (buf : List Nat) :
    (processWhile env did kw ts fmtLen n buf).calls =
      (processWhile env did kw2 ts2 fmtLen n buf).calls ∧
    (processWhile env did kw ts fmtLen n buf).buffer =
      (processWhile env did kw2 ts2 fmtLen n buf).buffer :=
  processWhileGo_kw_ts_irrel env did kw kw2 ts ts2 fmtLen n buf.length buf

theorem processWhile_append (env : Env) (did : Nat) (kw : String)
    (ts : Option Int) (fmtLen n : Nat) (hn : 0 < n) (x y : List Nat) :
    processWhile env did kw ts fmtLen n (x ++ y) =
      ⟨(processWhile env did kw ts fmtLen n x).calls ++
        (processWhile env did kw ts fmtLen n
          ((processWhile env did kw ts fmtLen n x).buffer ++ y)).calls,
       (processWhile env did kw ts fmtLen n x).outs ++
        (processWhile env did kw ts fmtLen n
          ((processWhile env did kw ts fmtLen n x).buffer ++ y)).outs,
       (processWhile env did kw ts fmtLen n
        ((processWhile env did kw ts fmtLen n x).buffer ++ y)).buffer⟩ := by
  by_cases hc : n ≤ x.length
  · have hxd := processWhile_append env did kw ts fmtLen n hn (x.drop n) y
    have hx := processWhile_ge env did kw ts fmtLen n x hn hc
    have hxy := processWhile_ge env did kw ts fmtLen n (x ++ y) hn
      (by simp only [List.length_append]; omega)
    rw [List.take_append_of_le_length hc, List.drop_append_of_le_length hc]
      at hxy
    rw [hxy, hxd, hx]
    simp
  · have hx := processWhile_lt env did kw ts fmtLen n x (by omega)
    rw [hx]
    simp
termination_by x.length
decreasing_by simp only [List.length_drop]; omega

/-- Unfolding of handle_event on an AudioChunk when a detector is already
bound: the chunk bytes are appended to the buffer and the while loop runs. -/
theorem handleEvent_audioChunk_bound (env : Env) (server : ServerState)
    (sess : Session) (d : Detector) (audio : List Nat) (ts : Option Int)
    (hd : sess.detector = some d) :
    handleEvent env server sess (.audioChunk audio ts) =
      ⟨{ sess with audioBuffer := (processWhile env d.id sess.keywordName ts sess.chunkFormatLen sess.bytesPerChunk (sess.audioBuffer ++ audio)).buffer },
       server,
       (processWhile env d.id sess.keywordName ts sess.chunkFormatLen
         sess.bytesPerChunk (sess.audioBuffer ++ audio)).outs,
       (processWhile env d.id sess.keywordName ts sess.chunkFormatLen
         sess.bytesPerChunk (sess.audioBuffer ++ audio)).calls,
       true, none⟩ := by
  simp [handleEvent, hd]

/-- Chunk splitting lemma: feeding any nonempty chunk list to a session with
a bound detector produces the frames and the final buffer of one run of the
while loop over the concatenation of the buffered bytes and all chunk
bytes. -/
theorem feedChunks_cons_calls (env : Env) :
    ∀ (cs : List (List Nat × Option Int)) (server : ServerState)
      (sess : Session) (d : Detector) (c : List Nat) (t : Option Int),
      sess.detector = some d → 0 < sess.bytesPerChunk →
      (feedChunks env server sess ((c, t) :: cs)).2.2 =
        (processWhile env d.id "" none sess.chunkFormatLen sess.bytesPerChunk
          (sess.audioBuffer ++ (c :: cs.map Prod.fst).flatten)).calls ∧
      (feedChunks env server sess ((c, t) :: cs)).1.audioBuffer =
        (processWhile env d.id "" none sess.chunkFormatLen sess.bytesPerChunk
          (sess.audioBuffer ++ (c :: cs.map Prod.fst).flatten)).buffer := by
  intro cs
  induction cs with
  | nil =>
      intro server sess d c t hd hn
      obtain ⟨hcalls, hbuf⟩ := processWhile_kw_ts_irrel env d.id
        sess.keywordName "" t none sess.chunkFormatLen sess.bytesPerChunk
        (sess.audioBuffer ++ c)
      simp [feedChunks, handleEvent_audioChunk_bound env server sess d c t hd,
        hcalls, hbuf]
  | cons p cs ih =>
      intro server sess d c t hd hn
      obtain ⟨p1, p2⟩ := p
      have hr := handleEvent_audioChunk_bound env server sess d c t hd
      obtain ⟨hcalls, hbuf⟩ := processWhile_kw_ts_irrel env d.id
        sess.keywordName "" t none sess.chunkFormatLen sess.bytesPerChunk
        (sess.audioBuffer ++ c)
      obtain ⟨hih1, hih2⟩ := ih server
        { sess with audioBuffer := (processWhile env d.id sess.keywordName t sess.chunkFormatLen sess.bytesPerChunk (sess.audioBuffer ++ c)).buffer }
        d p1 p2 hd hn
      have happ := processWhile_append env d.id "" none sess.chunkFormatLen
        sess.bytesPerChunk hn (sess.audioBuffer ++ c)
        ((p1 :: cs.map Prod.fst).flatten)
      simp only [feedChunks, hr]
      simp only [feedChunks] at hih1 hih2
      simp only [List.map_cons, List.flatten_cons] at hih1 hih2 happ ⊢
      simp only [hcalls, hbuf] at hih1 hih2 ⊢
      rw [List.append_assoc] at happ
      rw [hih1, hih2, happ]
      simp

/-! Lemmas for the ownership invariant of the detector cache system. -/

theorem filterMap_detector_set (ss : List Session) :
    ∀ (i : Nat) (sess sess' : Session), ss[i]? = some sess →
      (↑((ss.set i sess').filterMap Session.detector) +
        ↑sess.detector.toList : Multiset Detector) =
      ↑(ss.filterMap Session.detector) + ↑sess'.detector.toList := by
  induction ss with
  | nil => intro i sess sess' h; simp at h
  | cons a t ih =>
      intro i sess sess' h
      cases i with
      | zero =>
          simp only [List.getElem?_cons_zero, Option.some.injEq] at h
          subst h
          simp only [List.set_cons_zero]
          cases hs : a.detector <;> cases hs' : sess'.detector <;>
            simp [List.filterMap_cons, hs, hs', ← Multiset.cons_coe,
              ← Multiset.singleton_add] <;> abel
      | succ i =>
          simp only [List.getElem?_cons_succ] at h
          simp only [List.set_cons_succ]
          cases ha : a.detector with
          | none =>
              simp only [List.filterMap_cons, ha]
              exact ih i sess sess' h
          | some da =>
              simp only [List.filterMap_cons, ha, ← Multiset.cons_coe,
                ← Multiset.singleton_add]
              rw [add_assoc, add_assoc, ih i sess sess' h]

theorem filterMap_detector_set_ids (ss : List Session) (i : Nat)
    (sess sess' : Session) (h : ss[i]? = some sess) :
    (↑(((ss.set i sess').filterMap Session.detector).map Detector.id) +
      ↑(sess.detector.toList.map Detector.id) : Multiset Nat) =
    ↑((ss.filterMap Session.detector).map Detector.id) +
      ↑(sess'.detector.toList.map Detector.id) := by
  have h2 := congrArg (Multiset.map Detector.id)
    (filterMap_detector_set ss i sess sess' h)
  simpa using h2

theorem cacheJoin_release_eq (c : List (String × List Detector)) (k : String)
    (d : Detector) :
    (↑(cacheJoin (cacheSet c k (cacheGet c k ++ [d]))) : Multiset Detector) =
      ↑(cacheJoin c) + {d} := by
  have h := cacheJoin_cacheSet_perm c k (cacheGet c k ++ [d])
  rw [← Multiset.coe_eq_coe, ← Multiset.coe_add, ← Multiset.coe_add,
    ← Multiset.coe_add, Multiset.coe_singleton] at h
  rw [show (↑(cacheJoin c) + (↑(cacheGet c k) + {d}) : Multiset Detector) =
      (↑(cacheJoin c) + {d}) + ↑(cacheGet c k) from by abel] at h
  exact add_right_cancel h

theorem cacheJoin_release_ids (c : List (String × List Detector)) (k : String)
    (d : Detector) :
    (↑((cacheJoin (cacheSet c k (cacheGet c k ++ [d]))).map Detector.id) :
        Multiset Nat) =
      ↑((cacheJoin c).map Detector.id) + {d.id} := by
  have h2 := congrArg (Multiset.map Detector.id) (cacheJoin_release_eq c k d)
  simpa using h2

theorem cacheJoin_hit_ids (J' J : List Detector) (d : Detector)
    (hperm : (J' ++ [d]).Perm J) :
    (↑(J'.map Detector.id) + {d.id} : Multiset Nat) = ↑(J.map Detector.id) := by
  rw [← Multiset.coe_eq_coe, ← Multiset.coe_add, Multiset.coe_singleton] at hperm
  have h2 := congrArg (Multiset.map Detector.id) hperm
  simpa using h2

theorem ownedIds_eq (sys : Sys) :
    ownedIds sys =
      (sys.sessions.filterMap Session.detector).map Detector.id ++
      (cacheJoin sys.server.detectorCache).map Detector.id := by
  simp [ownedIds, ownedDetectors]

theorem sysInv_of_le (sys sys' : Sys) (h : SysInv sys)
    (hle : (↑(ownedIds sys') : Multiset Nat) ≤ ↑(ownedIds sys))
    (hnid : sys.server.nextId ≤ sys'.server.nextId) : SysInv sys' := by
  obtain ⟨hnd, hbd⟩ := h
  constructor
  · exact Multiset.coe_nodup.mp
      (Multiset.nodup_of_le hle (Multiset.coe_nodup.mpr hnd))
  · intro x hx
    exact lt_of_lt_of_le
      (hbd x (Multiset.mem_coe.mp (Multiset.mem_of_le hle (Multiset.mem_coe.mpr hx))))
      hnid

theorem sysInv_of_le_fresh (sys sys' : Sys) (h : SysInv sys)
    (hle : (↑(ownedIds sys') : Multiset Nat) ≤
      ↑(ownedIds sys) + {sys.server.nextId})
    (hnid : sys'.server.nextId = sys.server.nextId + 1) : SysInv sys' := by
  obtain ⟨hnd, hbd⟩ := h
  have hfresh : sys.server.nextId ∉ (↑(ownedIds sys) : Multiset Nat) := by
    intro hmem
    exact lt_irrefl _ (hbd _ (Multiset.mem_coe.mp hmem))
  have hnd2 : ((↑(ownedIds sys) : Multiset Nat) + {sys.server.nextId}).Nodup := by
    rw [add_comm, Multiset.singleton_add, Multiset.nodup_cons]
    exact ⟨hfresh, Multiset.coe_nodup.mpr hnd⟩
  constructor
  · exact Multiset.coe_nodup.mp (Multiset.nodup_of_le hle hnd2)
  · intro x hx
    have hm := Multiset.mem_of_le hle (Multiset.mem_coe.mpr hx)
    rw [Multiset.mem_add] at hm
    rcases hm with h1 | h2
    · have := hbd x (Multiset.mem_coe.mp h1)
      omega
    · have : x = sys.server.nextId := by simpa using h2
      omega

theorem sysInv_preserved (env : Env) (sys : Sys) (op : SysOp)
    (h : SysInv sys) : SysInv (applyOp env sys op) := by
  cases op with
  | acquire i name =>
      cases hsi : sys.sessions[i]? with
      | none => simpa [applyOp, hsi] using h
      | some sess =>
          rcases loadKeyword_spec env sys.server sess name with
            ⟨e, sv, hg, hl⟩ | ⟨d, sv, hg, hl⟩
          · obtain ⟨hsv, _⟩ := getPorcupine_error_spec env sys.server name
              env.sensitivity e sv hg
            subst hsv
            have happly : applyOp env sys (.acquire i name) =
                ⟨sys.server, sys.sessions.set i sess⟩ := by
              simp [applyOp, hsi, hl]
            rw [happly]
            refine sysInv_of_le sys _ h (le_of_eq ?_) (le_refl _)
            have hset := filterMap_detector_set_ids sys.sessions i sess sess hsi
            have hBB := add_right_cancel hset
            rw [ownedIds_eq ⟨sys.server, sys.sessions.set i sess⟩,
              ownedIds_eq sys, ← Multiset.coe_add, ← Multiset.coe_add, hBB]
          · obtain ⟨_, _, hcases⟩ := getPorcupine_ok_spec env sys.server name
              env.sensitivity d sv hg
            have happly : applyOp env sys (.acquire i name) =
                ⟨sv, sys.sessions.set i { sess with detector := some d, keywordName := name, chunkFormatLen := d.frameLength, bytesPerChunk := d.frameLength * 2 }⟩ := by
              simp [applyOp, hsi, hl]
            rw [happly]
            have hset := filterMap_detector_set_ids sys.sessions i sess
              { sess with detector := some d, keywordName := name, chunkFormatLen := d.frameLength, bytesPerChunk := d.frameLength * 2 } hsi
            simp only [Option.toList_some, List.map_cons, List.map_nil,
              Multiset.coe_singleton] at hset
            rcases hcases with ⟨_, hnid, hperm⟩ | ⟨hfresh, hsame, hnid, _⟩
            · have hJ := cacheJoin_hit_ids (cacheJoin sv.detectorCache)
                (cacheJoin sys.server.detectorCache) d hperm
              have howned : (↑(ownedIds ⟨sv, sys.sessions.set i { sess with detector := some d, keywordName := name, chunkFormatLen := d.frameLength, bytesPerChunk := d.frameLength * 2 }⟩) : Multiset Nat) + ↑(sess.detector.toList.map Detector.id) = ↑(ownedIds sys) := by
                rw [ownedIds_eq, ownedIds_eq sys, ← Multiset.coe_add,
                  ← Multiset.coe_add]
                have key : (↑(((sys.sessions.set i { sess with detector := some d, keywordName := name, chunkFormatLen := d.frameLength, bytesPerChunk := d.frameLength * 2 }).filterMap Session.detector).map Detector.id) + ↑((cacheJoin sv.detectorCache).map Detector.id) : Multiset Nat) + ↑(sess.detector.toList.map Detector.id) + {d.id} = (↑((sys.sessions.filterMap Session.detector).map Detector.id) + ↑((cacheJoin sys.server.detectorCache).map Detector.id)) + {d.id} := by
                  calc (↑(((sys.sessions.set i { sess with detector := some d, keywordName := name, chunkFormatLen := d.frameLength, bytesPerChunk := d.frameLength * 2 }).filterMap Session.detector).map Detector.id) + ↑((cacheJoin sv.detectorCache).map Detector.id) : Multiset Nat) + ↑(sess.detector.toList.map Detector.id) + {d.id}
                      = (↑(((sys.sessions.set i { sess with detector := some d, keywordName := name, chunkFormatLen := d.frameLength, bytesPerChunk := d.frameLength * 2 }).filterMap Session.detector).map Detector.id) + ↑(sess.detector.toList.map Detector.id)) + (↑((cacheJoin sv.detectorCache).map Detector.id) + {d.id}) := by abel
                    _ = (↑((sys.sessions.filterMap Session.detector).map Detector.id) + {d.id}) + ↑((cacheJoin sys.server.detectorCache).map Detector.id) := by rw [hset, hJ]
                    _ = (↑((sys.sessions.filterMap Session.detector).map Detector.id) + ↑((cacheJoin sys.server.detectorCache).map Detector.id)) + {d.id} := by abel
                exact add_right_cancel key
              refine sysInv_of_le sys _ h ?_ (le_of_eq hnid.symm)
              exact Multiset.le_iff_exists_add.mpr
                ⟨↑(sess.detector.toList.map Detector.id), howned.symm⟩
            · have hdid : d.id = sys.server.nextId := by rw [hfresh]; rfl
              have howned : (↑(ownedIds ⟨sv, sys.sessions.set i { sess with detector := some d, keywordName := name, chunkFormatLen := d.frameLength, bytesPerChunk := d.frameLength * 2 }⟩) : Multiset Nat) + ↑(sess.detector.toList.map Detector.id) = ↑(ownedIds sys) + {sys.server.nextId} := by
                rw [ownedIds_eq, ownedIds_eq sys, ← Multiset.coe_add,
                  ← Multiset.coe_add, hsame]
                calc (↑(((sys.sessions.set i { sess with detector := some d, keywordName := name, chunkFormatLen := d.frameLength, bytesPerChunk := d.frameLength * 2 }).filterMap Session.detector).map Detector.id) + ↑((cacheJoin sys.server.detectorCache).map Detector.id) : Multiset Nat) + ↑(sess.detector.toList.map Detector.id)
                    = (↑(((sys.sessions.set i { sess with detector := some d, keywordName := name, chunkFormatLen := d.frameLength, bytesPerChunk := d.frameLength * 2 }).filterMap Session.detector).map Detector.id) + ↑(sess.detector.toList.map Detector.id)) + ↑((cacheJoin sys.server.detectorCache).map Detector.id) := by abel
                  _ = (↑((sys.sessions.filterMap Session.detector).map Detector.id) + {d.id}) + ↑((cacheJoin sys.server.detectorCache).map Detector.id) := by rw [hset]
                  _ = (↑((sys.sessions.filterMap Session.detector).map Detector.id) + ↑((cacheJoin sys.server.detectorCache).map Detector.id)) + {sys.server.nextId} := by rw [hdid]; abel
              exact sysInv_of_le_fresh sys _ h
                (Multiset.le_iff_exists_add.mpr
                  ⟨↑(sess.detector.toList.map Detector.id), howned.symm⟩)
                hnid
  | release i =>
      cases hsi : sys.sessions[i]? with
      | none => simpa [applyOp, hsi] using h
      | some sess =>
          cases hd : sess.detector with
          | none =>
              have happly : applyOp env sys (.release i) =
                  ⟨sys.server, sys.sessions.set i sess⟩ := by
                simp [applyOp, hsi, disconnect, hd]
              rw [happly]
              refine sysInv_of_le sys _ h (le_of_eq ?_) (le_refl _)
              have hset := filterMap_detector_set_ids sys.sessions i sess sess hsi
              have hBB := add_right_cancel hset
              rw [ownedIds_eq ⟨sys.server, sys.sessions.set i sess⟩,
                ownedIds_eq sys, ← Multiset.coe_add, ← Multiset.coe_add, hBB]
          | some d =>
              have happly : applyOp env sys (.release i) =
                  ⟨{ sys.server with detectorCache := cacheSet sys.server.detectorCache sess.keywordName (cacheGet sys.server.detectorCache sess.keywordName ++ [d]) },
                   sys.sessions.set i { sess with detector := none }⟩ := by
                simp [applyOp, hsi, disconnect, hd]
              rw [happly]
              refine sysInv_of_le sys _ h (le_of_eq ?_) (le_refl _)
              have hset := filterMap_detector_set_ids sys.sessions i sess
                { sess with detector := none } hsi
              simp only [hd, Option.toList_some, Option.toList_none,
                List.map_cons, List.map_nil, Multiset.coe_singleton,
                Multiset.coe_nil, add_zero] at hset
              have hJ := cacheJoin_release_ids sys.server.detectorCache
                sess.keywordName d
              rw [ownedIds_eq, ownedIds_eq sys, ← Multiset.coe_add,
                ← Multiset.coe_add]
              calc (↑(((sys.sessions.set i { sess with detector := none }).filterMap Session.detector).map Detector.id) + ↑((cacheJoin (cacheSet sys.server.detectorCache sess.keywordName (cacheGet sys.server.detectorCache sess.keywordName ++ [d]))).map Detector.id) : Multiset Nat)
                  = ↑(((sys.sessions.set i { sess with detector := none }).filterMap Session.detector).map Detector.id) + (↑((cacheJoin sys.server.detectorCache).map Detector.id) + {d.id}) := by rw [hJ]
                _ = (↑(((sys.sessions.set i { sess with detector := none }).filterMap Session.detector).map Detector.id) + {d.id}) + ↑((cacheJoin sys.server.detectorCache).map Detector.id) := by abel
                _ = ↑((sys.sessions.filterMap Session.detector).map Detector.id) + ↑((cacheJoin sys.server.detectorCache).map Detector.id) := by rw [hset]

theorem acquiredUnique_of_inv (env : Env) (sys : Sys) (op : SysOp)
    (h' : SysInv (applyOp env sys op)) : acquiredUnique env sys op := by
  cases op with
  | release i => trivial
  | acquire i name =>
      simp only [acquiredUnique]
      cases hb : ((applyOp env sys (.acquire i name)).sessions[i]?).bind
        Session.detector with
      | none => trivial
      | some d =>
          obtain ⟨sess1, hs1, hdet⟩ : ∃ s,
              (applyOp env sys (.acquire i name)).sessions[i]? = some s ∧
              s.detector = some d := by
            cases hq : (applyOp env sys (.acquire i name)).sessions[i]? with
            | none => rw [hq] at hb; simp at hb
            | some s => rw [hq] at hb; exact ⟨s, rfl, hb⟩
          have hmemD : d ∈ ownedDetectors (applyOp env sys (.acquire i name)) := by
            unfold ownedDetectors
            exact List.mem_append_left _
              (List.mem_filterMap.mpr ⟨sess1, List.getElem?_mem hs1, hdet⟩)
          have hmem : d.id ∈ ownedIds (applyOp env sys (.acquire i name)) :=
            List.mem_map_of_mem Detector.id hmemD
          exact List.count_eq_one_of_mem h'.1 hmem

/-! Claim theorems. -/

/-- C1 (code bug evaluated at the failing input): in a single
AudioStart..AudioStop utterance in which a Detection event was emitted (the
process oracle matches the first frame), AudioStop still emits NotDetected,
because handle_event never sets the detected flag to true: the written event
trace contains both a Detection and a NotDetected.  The claim (and the code
comment at handler.py line 161) say NotDetected is emitted iff no Detection
was emitted since AudioStart. -/
theorem claim_C1 :
    (runEvents envA serverA initSession
      [.audioStart, .audioChunk [0, 0] none, .audioStop]).2.2 =
      [.detection DEFAULT_KEYWORD none, .notDetected] := by decide

/-- C2 (amended): handling a Detect event never releases the previously
bound detector into the idle set: the idle set only shrinks across a Detect,
so a previously bound detector that was not idle before is not idle after the
rebind -- it is leaked, not returned to the cache (disconnect is the only
return path). -/
theorem claim_C2 (env : Env) (server : ServerState) (sess : Session)
    (name : String) (rest : List String) (d : Detector)
    (_hd : sess.detector = some d) :
    (∀ x ∈ cacheJoin
        (handleEvent env server sess (.detect (name :: rest))).server.detectorCache,
      x ∈ cacheJoin server.detectorCache) ∧
    (d ∉ cacheJoin server.detectorCache →
      d ∉ cacheJoin
        (handleEvent env server sess (.detect (name :: rest))).server.detectorCache) := by
  have hsub : ∀ x ∈ cacheJoin
      (handleEvent env server sess (.detect (name :: rest))).server.detectorCache,
      x ∈ cacheJoin server.detectorCache := by
    rcases loadKeyword_spec env server sess name with
      ⟨e, sv, hg, hl⟩ | ⟨dnew, sv, hg, hl⟩
    · obtain ⟨hse, _⟩ := getPorcupine_error_spec env server name env.sensitivity e sv hg
      subst hse
      simp [handleEvent, hl]
    · obtain ⟨_, _, hcases⟩ :=
        getPorcupine_ok_spec env server name env.sensitivity dnew sv hg
      rcases hcases with ⟨_, _, hperm⟩ | ⟨_, hsame, _, _⟩
      · intro x hx
        simp only [handleEvent, hl] at hx
        exact hperm.subset (List.mem_append_left _ hx)
      · intro x hx
        simp only [handleEvent, hl] at hx
        rw [hsame] at hx
        exact hx
  exact ⟨hsub, fun hni hmem => hni (hsub d hmem)⟩

/-- C2 witness: the amended theorem applied to a session bound to detector 0
for keyword a receiving a Detect for keyword b. -/
theorem claim_C2_witness :
    sessA.detector = some ⟨0, 2, 1⟩ ∧
    ((∀ x ∈ cacheJoin
        (handleEvent envA serverB sessA (.detect ["b"])).server.detectorCache,
      x ∈ cacheJoin serverB.detectorCache) ∧
    ((⟨0, 2, 1⟩ : Detector) ∉ cacheJoin serverB.detectorCache →
      (⟨0, 2, 1⟩ : Detector) ∉ cacheJoin
        (handleEvent envA serverB sessA (.detect ["b"])).server.detectorCache)) :=
  ⟨rfl, claim_C2 envA serverB sessA "b" [] ⟨0, 2, 1⟩ rfl⟩

/-- C2 counterexample: session bound to detector 0 for keyword a handles a
Detect for keyword b; afterwards the new detector is bound but the old
detector 0 is in no idle list of the cache (the idle set is empty), so it
was not first released back into the idle set as the claim states. -/
theorem claim_C2_cex :
    sessA.detector = some ⟨0, 2, 1⟩ ∧
    (handleEvent envA serverB sessA (.detect ["b"])).sess.detector =
      some ⟨1, 1, 1⟩ ∧
    cacheJoin
      (handleEvent envA serverB sessA (.detect ["b"])).server.detectorCache = [] := by
  refine ⟨rfl, ?_, ?_⟩ <;> decide

/-- C3 (confirmed): across any interleaved sequence of acquire
(_load_keyword, hence State.get_porcupine) and release (disconnect)
operations by any sessions, the ownership invariant is preserved: every
detector identity is owned by at most one owner among all sessions and all
idle lists (and all identities were minted by past builds), and after an
acquire the detector bound to the acquiring session occurs exactly once
among all owners -- so no two acquires can return the same instance before
an intervening release, because a cache hit is removed from the idle list
before being handed out. -/
theorem claim_C3 (env : Env) (sys : Sys) (op : SysOp) (h : SysInv sys) :
    SysInv (applyOp env sys op) ∧ acquiredUnique env sys op :=
  have hp := sysInv_preserved env sys op h
  ⟨hp, acquiredUnique_of_inv env sys op hp⟩

/-- C3 witness: the theorem applied to a two-session system in which session
zero acquires keyword b (a cache hit). -/
theorem claim_C3_witness :
    SysInv ⟨serverB, [initSession, sessA]⟩ ∧
    (SysInv (applyOp envA ⟨serverB, [initSession, sessA]⟩ (.acquire 0 "b")) ∧
     acquiredUnique envA ⟨serverB, [initSession, sessA]⟩ (.acquire 0 "b")) :=
  ⟨by decide,
   claim_C3 envA ⟨serverB, [initSession, sessA]⟩ (.acquire 0 "b") (by decide)⟩

/-- C4 (confirmed): a successful State.get_porcupine call returns a detector
whose sensitivity exactly equals the requested one; it never adds any
detector to the cache; and the result is either taken from the idle list of
the requested keyword, or (exactly when no idle detector of that keyword has
exactly equal sensitivity) is a freshly built detector, with the cache left
completely unchanged in that case. -/
theorem claim_C4 (env : Env) (st : ServerState) (k : String) (s : ℚ)
    (d : Detector) (st' : ServerState)
    (h : getPorcupine env st k s = (.ok d, st')) :
    d.sensitivity = s ∧
    (∀ x ∈ cacheJoin st'.detectorCache, x ∈ cacheJoin st.detectorCache) ∧
    (d ∈ cacheGet st.detectorCache k ∨
      (d.id = st.nextId ∧ st'.detectorCache = st.detectorCache ∧
        ∀ x ∈ cacheGet st.detectorCache k, ¬ x.sensitivity = s)) := by
  obtain ⟨_, hs, hcases⟩ := getPorcupine_ok_spec env st k s d st' h
  rcases hcases with ⟨hmem, _, hperm⟩ | ⟨hfresh, hsame, _, hnone⟩
  · exact ⟨hs, fun x hx => hperm.subset (List.mem_append_left _ hx),
      Or.inl hmem⟩
  · refine ⟨hs, ?_, Or.inr ⟨by rw [hfresh]; rfl, hsame, hnone⟩⟩
    rw [hsame]
    exact fun x hx => hx

/-- C4 witness: the theorem applied to a cache hit for keyword b at
sensitivity 1. -/
theorem claim_C4_witness :
    getPorcupine envA serverB "b" 1 =
      (.ok ⟨1, 1, 1⟩, ⟨serverB.keywords, [("b", [])], 2⟩) ∧
    ((⟨1, 1, 1⟩ : Detector).sensitivity = 1 ∧
    (∀ x ∈ cacheJoin (⟨serverB.keywords, [("b", [])], 2⟩ : ServerState).detectorCache,
      x ∈ cacheJoin serverB.detectorCache) ∧
    ((⟨1, 1, 1⟩ : Detector) ∈ cacheGet serverB.detectorCache "b" ∨
      ((⟨1, 1, 1⟩ : Detector).id = serverB.nextId ∧
        (⟨serverB.keywords, [("b", [])], 2⟩ : ServerState).detectorCache =
          serverB.detectorCache ∧
        ∀ x ∈ cacheGet serverB.detectorCache "b", ¬ x.sensitivity = 1))) :=
  ⟨by rfl, claim_C4 envA serverB "b" 1 ⟨1, 1, 1⟩ ⟨serverB.keywords, [("b", [])], 2⟩ (by rfl)⟩

/-- C6 (amended): handling a Detect event leaves the raw audio
accumulation buffer unchanged, whether or not a rebind happens: the bytes
buffered under the frame alignment of the prior keyword are retained, not
discarded. -/
theorem claim_C6 (env : Env) (server : ServerState) (sess : Session)
    (names : List String) :
    (handleEvent env server sess (.detect names)).sess.audioBuffer =
      sess.audioBuffer := by
  cases names with
  | nil => rfl
  | cons name rest =>
      rcases loadKeyword_spec env server sess name with
        ⟨e, sv, _, hl⟩ | ⟨dnew, sv, _, hl⟩
      · simp [handleEvent, hl]
      · simp [handleEvent, hl]

/-- C6 counterexample: a session bound for keyword a with three buffered
bytes rebinds to keyword b (frame size two bytes); the buffer is not reset
(it still holds the three bytes), and the next AudioChunk feeds a frame made
of those pre-rebind bytes to the newly bound detector, contradicting the
claim that no bytes buffered before the rebind are ever fed to it. -/
theorem claim_C6_cex :
    sessA.audioBuffer = [9, 9, 9] ∧
    (handleEvent envA serverB sessA (.detect ["b"])).sess.audioBuffer =
      [9, 9, 9] ∧
    (handleEvent envA
      (handleEvent envA serverB sessA (.detect ["b"])).server
      (handleEvent envA serverB sessA (.detect ["b"])).sess
      (.audioChunk [] none)).calls = [[2313]] := by
  refine ⟨rfl, ?_, ?_⟩ <;> decide

/-- C7 (confirmed): State.get_porcupine called with a keyword name absent
from the keyword mapping fails with the ValueError message and returns the
process-wide state exactly as it was: neither the detector cache nor the
keyword mapping is mutated. -/
theorem claim_C7 (env : Env) (st : ServerState) (k : String) (s : ℚ)
    (h : lookupKeyword st.keywords k = none) :
    getPorcupine env st k s = (.error ("No keyword " ++ k), st) := by
  simp [getPorcupine, h]

/-- C7 witness: the theorem applied to a lookup of an undiscovered keyword
name. -/
theorem claim_C7_witness :
    lookupKeyword serverA.keywords "missing" = none ∧
    getPorcupine envA serverA "missing" 1 =
      (.error ("No keyword " ++ "missing"), serverA) :=
  ⟨by decide, claim_C7 envA serverA "missing" 1 (by decide)⟩

/-- C10 (confirmed): a Detect event with an empty names list is ignored:
handle_event returns true, writes nothing, calls the detector on nothing,
raises nothing, and leaves the session and the shared state exactly
unchanged. -/
theorem claim_C10 (env : Env) (server : ServerState) (sess : Session) :
    handleEvent env server sess (.detect []) =
      ⟨sess, server, [], [], true, none⟩ := rfl

/-- C5 (confirmed): for a session with a bound detector, delivering the same
total converted audio bytes split into AudioChunk events of any sizes (any
nonempty list of chunks, with any per-chunk timestamps) produces exactly the
frames passed to porcupine.process, in the same order, as delivering all the
bytes in one AudioChunk, and leaves the same trailing bytes buffered:
buffering is increment-size independent. -/
theorem claim_C5 (env : Env) (server : ServerState) (sess : Session)
    (d : Detector) (c : List Nat) (t : Option Int)
    (cs : List (List Nat × Option Int)) (ts : Option Int)
    (hd : sess.detector = some d) (hn : 0 < sess.bytesPerChunk) :
    (feedChunks env server sess ((c, t) :: cs)).2.2 =
      (handleEvent env server sess
        (.audioChunk ((c :: cs.map Prod.fst).flatten) ts)).calls ∧
    (feedChunks env server sess ((c, t) :: cs)).1.audioBuffer =
      (handleEvent env server sess
        (.audioChunk ((c :: cs.map Prod.fst).flatten) ts)).sess.audioBuffer := by
  obtain ⟨h1, h2⟩ := feedChunks_cons_calls env cs server sess d c t hd hn
  obtain ⟨h3, h4⟩ := processWhile_kw_ts_irrel env d.id sess.keywordName ""
    ts none sess.chunkFormatLen sess.bytesPerChunk
    (sess.audioBuffer ++ (c :: cs.map Prod.fst).flatten)
  rw [handleEvent_audioChunk_bound env server sess d _ ts hd]
  exact ⟨h1.trans h3.symm, h2.trans h4.symm⟩

/-- C5 witness: the theorem applied to a bound session receiving three bytes
split as one byte then two bytes. -/
theorem claim_C5_witness :
    sessA.detector = some ⟨0, 2, 1⟩ ∧ 0 < sessA.bytesPerChunk ∧
    ((feedChunks envA serverB sessA [([1], none), ([2, 3], some 7)]).2.2 =
      (handleEvent envA serverB sessA
        (.audioChunk (([1] :: [([2, 3], some 7)].map Prod.fst).flatten) none)).calls ∧
    (feedChunks envA serverB sessA [([1], none), ([2, 3], some 7)]).1.audioBuffer =
      (handleEvent envA serverB sessA
        (.audioChunk (([1] :: [([2, 3], some 7)].map Prod.fst).flatten) none)).sess.audioBuffer) :=
  ⟨rfl, by decide,
   claim_C5 envA serverB sessA ⟨0, 2, 1⟩ [1] none [([2, 3], some 7)] none rfl
     (by decide)⟩

/-- C8 (confirmed): an AudioChunk arriving while no detector is bound makes
the session bind the default keyword porcupine through the cache, and the
frames fed to porcupine.process are exactly those of the detector of the
default keyword over the buffered and chunk bytes, under the frame
size. -/
theorem claim_C8 (env : Env) (server : ServerState) (sess : Session)
    (audio : List Nat) (ts : Option Int) (d : Detector)
    (server2 : ServerState) (hnone : sess.detector = none)
    (hok : getPorcupine env server DEFAULT_KEYWORD env.sensitivity =
      (.ok d, server2)) :
    (handleEvent env server sess (.audioChunk audio ts)).sess.keywordName =
      DEFAULT_KEYWORD ∧
    (handleEvent env server sess (.audioChunk audio ts)).sess.detector =
      some d ∧
    (handleEvent env server sess (.audioChunk audio ts)).server = server2 ∧
    (handleEvent env server sess (.audioChunk audio ts)).calls =
      (processWhile env d.id DEFAULT_KEYWORD ts d.frameLength
        (d.frameLength * 2) (sess.audioBuffer ++ audio)).calls ∧
    (handleEvent env server sess (.audioChunk audio ts)).err = none := by
  simp [handleEvent, hnone, loadKeyword, hok]

/-- C8 witness: the theorem applied to a fresh session receiving one frame of
audio with an empty cache. -/
theorem claim_C8_witness :
    initSession.detector = none ∧
    getPorcupine envA serverA DEFAULT_KEYWORD envA.sensitivity =
      (.ok ⟨0, 1, 1⟩, ⟨serverA.keywords, [], 1⟩) ∧
    ((handleEvent envA serverA initSession (.audioChunk [0, 0] none)).sess.keywordName =
      DEFAULT_KEYWORD ∧
    (handleEvent envA serverA initSession (.audioChunk [0, 0] none)).sess.detector =
      some ⟨0, 1, 1⟩ ∧
    (handleEvent envA serverA initSession (.audioChunk [0, 0] none)).server =
      ⟨serverA.keywords, [], 1⟩ ∧
    (handleEvent envA serverA initSession (.audioChunk [0, 0] none)).calls =
      (processWhile envA (0 : Nat) DEFAULT_KEYWORD none (1 : Nat) (1 * 2)
        (initSession.audioBuffer ++ [0, 0])).calls ∧
    (handleEvent envA serverA initSession (.audioChunk [0, 0] none)).err = none) :=
  ⟨rfl, by rfl,
   claim_C8 envA serverA initSession [0, 0] none ⟨0, 1, 1⟩
     ⟨serverA.keywords, [], 1⟩ rfl (by rfl)⟩

/-- C9 (amended): for a session with a bound detector and positive frame
size, handling any AudioChunk leaves strictly fewer than one frame of bytes
buffered; every handler other than Detect preserves this invariant, but a
Detect rebind can break it because the new frame size may be smaller than
the held buffer (see the counterexample). -/
theorem claim_C9 (env : Env) (server : ServerState) (sess : Session)
    (d : Detector) (hd : sess.detector = some d)
    (hn : 0 < sess.bytesPerChunk) :
    (∀ audio : List Nat, ∀ ts : Option Int,
      (handleEvent env server sess (.audioChunk audio ts)).sess.audioBuffer.length <
      (handleEvent env server sess (.audioChunk audio ts)).sess.bytesPerChunk) ∧
    (∀ ev : InEvent, (∀ names, ev ≠ .detect names) →
      sess.audioBuffer.length < sess.bytesPerChunk →
      (handleEvent env server sess ev).sess.audioBuffer.length <
      (handleEvent env server sess ev).sess.bytesPerChunk) := by
  have hchunk : ∀ audio : List Nat, ∀ ts : Option Int,
      (handleEvent env server sess (.audioChunk audio ts)).sess.audioBuffer.length <
      (handleEvent env server sess (.audioChunk audio ts)).sess.bytesPerChunk := by
    intro audio ts
    rw [handleEvent_audioChunk_bound env server sess d audio ts hd]
    exact processWhile_buffer_lt env d.id sess.keywordName ts
      sess.chunkFormatLen sess.bytesPerChunk (sess.audioBuffer ++ audio) hn
  refine ⟨hchunk, ?_⟩
  intro ev hne hinv
  cases ev with
  | describe => exact hinv
  | detect names => exact absurd rfl (hne names)
  | audioStart => exact hinv
  | audioChunk audio ts => exact hchunk audio ts
  | audioStop =>
      cases hb : sess.detected <;> simp [handleEvent, hb] <;> exact hinv
  | other => exact hinv

/-- C9 witness: the amended theorem applied to a bound session with a
four-byte frame. -/
theorem claim_C9_witness :
    sessA.detector = some ⟨0, 2, 1⟩ ∧ 0 < sessA.bytesPerChunk ∧
    ((∀ audio : List Nat, ∀ ts : Option Int,
      (handleEvent envA serverB sessA (.audioChunk audio ts)).sess.audioBuffer.length <
      (handleEvent envA serverB sessA (.audioChunk audio ts)).sess.bytesPerChunk) ∧
    (∀ ev : InEvent, (∀ names, ev ≠ .detect names) →
      sessA.audioBuffer.length < sessA.bytesPerChunk →
      (handleEvent envA serverB sessA ev).sess.audioBuffer.length <
      (handleEvent envA serverB sessA ev).sess.bytesPerChunk)) :=
  ⟨rfl, by decide, claim_C9 envA serverB sessA ⟨0, 2, 1⟩ rfl (by decide)⟩

/-- C9 counterexample: a session with a sixteen-byte frame and ten buffered
bytes satisfies the invariant, but after handling a Detect that rebinds to a
keyword with an eight-byte frame, the buffer holds ten bytes, at least one
full frame: the invariant is not preserved by the Detect handler, refuting
the part of the claim that says every event handler preserves it. -/
theorem claim_C9_cex :
    sess9.audioBuffer.length < sess9.bytesPerChunk ∧
    ¬ ((handleEvent envB serverB sess9 (.detect ["small"])).sess.audioBuffer.length <
       (handleEvent envB serverB sess9 (.detect ["small"])).sess.bytesPerChunk) := by
  refine ⟨by decide, ?_⟩
  decide

end WyomingPorcupine
